import Mathlib

/-!
Verification of the jp2n plugin core against its specification.

The development shallowly embeds the plugin's pure logic:

* the relay publish loop of `publishToNostr` (src/publish.ts),
* the profile fetch of `fetchProfileInfo` (src/profile.ts),
* the Blossom upload client `uploadImageToBlossom` / `uploadImages`
  (src/imageUploader.ts),
* the markdown rewriter `replaceResourceUrls` and the extractor
  `extractLocalImagePaths`.

Network, cryptography, JSON parsing and URI decoding are external
collaborators; they enter the model as explicit oracle parameters,
while all control flow, aggregation, string manipulation and error
handling is translated directly from the source.
-/

namespace JP2N

/-! ## Broadcast engine: the relay loop of `publishToNostr` (src/publish.ts) -/

/-- External behaviour of one relay URL: whether `Relay.connect` throws
(and with which message), whether `relay.publish` throws, and how long
each awaited step takes.  `publishErr` is only reached when the connect
succeeded, mirroring the control flow of the source. -/
structure RelayBehavior where
  connectErr : Option String
  publishErr : Option String
  connectTime : Nat
  publishTime : Nat
deriving DecidableEq

/-- Observable network events of the publish loop, time-stamped at the
start of each connection attempt. -/
inductive NetEvent where
  | connectStart (url : String) (t : Nat)
  | connected (url : String)
  | published (url : String)
  | closed (url : String)
  | failed (url : String) (msg : String)
deriving DecidableEq

/-- State threaded through the `for (const relayUrl of relays)` loop of
`publishToNostr`: elapsed time, `successCount`, `errorMessages`, and the
trace of network events so far. -/
structure BState where
  time : Nat
  successCount : Nat
  errorMessages : List String
  trace : List NetEvent
deriving DecidableEq

/-- The causal error of one relay attempt: the connect error if the
connect threw, otherwise the publish error if the publish threw,
otherwise `none` (success). -/
def relayAttemptErr (b : RelayBehavior) : Option String :=
  match b.connectErr with
  | some m => some m
  | none => b.publishErr

/-- Wall-clock duration of one relay attempt: a failed connect consumes
only the connect time; after a successful connect the publish await
also runs. -/
def attemptDur (b : RelayBehavior) : Nat :=
  match b.connectErr with
  | some _ => b.connectTime
  | none => b.connectTime + b.publishTime

/-- One iteration of the relay loop (src/publish.ts lines 315-331):
`try { connect; publish; successCount++; close() } catch { errorMessages.push(url + ": " + msg) }`.
The connection is closed only on the all-success path, exactly as in
the source. -/
def attemptRelay (b : RelayBehavior) (url : String) (s : BState) : BState :=
  match b.connectErr with
  | some m =>
    { s with
      time := s.time + b.connectTime
      errorMessages := s.errorMessages ++ [url ++ ": " ++ m]
      trace := s.trace ++ [.connectStart url s.time, .failed url m] }
  | none =>
    match b.publishErr with
    | some m =>
      { s with
        time := s.time + b.connectTime + b.publishTime
        errorMessages := s.errorMessages ++ [url ++ ": " ++ m]
        trace := s.trace ++ [.connectStart url s.time, .connected url, .failed url m] }
    | none =>
      { s with
        time := s.time + b.connectTime + b.publishTime
        successCount := s.successCount + 1
        trace := s.trace ++ [.connectStart url s.time, .connected url,
                             .published url, .closed url] }

/-- Initial loop state: `successCount = 0`, `errorMessages = []`. -/
def initBState : BState := ⟨0, 0, [], []⟩

/-- The whole relay loop of `publishToNostr`, sequentially folding the
configured relay list exactly as the `for ... of` loop does. -/
def runBroadcast (behav : String → RelayBehavior) (relays : List String) : BState :=
  relays.foldl (fun s url => attemptRelay (behav url) url s) initBState

/-- Events emitted by a single attempt, for trace reasoning. -/
def attemptTrace (b : RelayBehavior) (url : String) (t : Nat) : List NetEvent :=
  match b.connectErr with
  | some m => [.connectStart url t, .failed url m]
  | none =>
    match b.publishErr with
    | some m => [.connectStart url t, .connected url, .failed url m]
    | none => [.connectStart url t, .connected url, .published url, .closed url]

/-- The full event trace of a sequential broadcast starting at time `t`. -/
def broadcastTrace (behav : String → RelayBehavior) : List String → Nat → List NetEvent
  | [], _ => []
  | u :: rest, t =>
    attemptTrace (behav u) u t ++ broadcastTrace behav rest (t + attemptDur (behav u))

/-- The per-endpoint outcomes recoverable from a trace: one entry per
relay attempt, `none` for an acknowledged publish and `some msg` for a
failure with its causal message. -/
def outcomeEvents (tr : List NetEvent) : List (String × Option String) :=
  tr.filterMap fun e =>
    match e with
    | .published u => some (u, none)
    | .failed u m => some (u, some m)
    | _ => none

/-- The connection-attempt start times recorded in a trace. -/
def connectStarts (tr : List NetEvent) : List (String × Nat) :=
  tr.filterMap fun e =>
    match e with
    | .connectStart u t => some (u, t)
    | _ => none

/-- Start times of a strictly sequential schedule: each endpoint starts
when the previous attempt has finished. -/
def seqStarts (behav : String → RelayBehavior) : List String → Nat → List (String × Nat)
  | [], _ => []
  | u :: rest, t => (u, t) :: seqStarts behav rest (t + attemptDur (behav u))

/-- Behaviour used to exhibit the connection leak: the connect succeeds
and the publish throws. -/
def leakBehav : String → RelayBehavior := fun _ =>
  ⟨none, some "publish timed out", 1, 1⟩

/-- Two-relay scenario: the first relay is dead and slow (its connect
attempt consumes 100 time units before throwing), the second is fine. -/
def slowFirstBehav : String → RelayBehavior := fun u =>
  if u = "wss://dead.example" then ⟨some "connection timed out", none, 100, 0⟩
  else ⟨none, none, 1, 1⟩

/-- Same scenario except that the first relay answers quickly; the two
behaviours agree on every other URL. -/
def fastFirstBehav : String → RelayBehavior := fun u =>
  if u = "wss://dead.example" then ⟨none, none, 1, 1⟩
  else ⟨none, none, 1, 1⟩

/-! ## Fetch aggregator: `fetchProfileInfo` (src/profile.ts) -/

/-- A received relay event as seen by the subscription callbacks:
its kind and its raw `content` string. -/
structure NEvent where
  kind : Nat
  content : String
deriving DecidableEq

/-- The result of `JSON.parse(event.content)` restricted to the fields
the code reads.  `none` on a field models an absent or falsy value. -/
structure ProfileMeta where
  name : Option String
  display_name : Option String
  picture : Option String
deriving DecidableEq

/-- JavaScript `a || b` on an optional string against a default:
an absent or empty string falls through to the default. -/
def jsOr (o : Option String) (d : String) : String :=
  match o with
  | some s => if s = "" then d else s
  | none => d

/-- Outcome of the profile fetch, by the control-flow branch taken:
the early return when no relay connection succeeded (settings text
"Could not connect to any relays"), a found profile, or the not-found
fallback (settings text "No profile found"). -/
inductive FetchOutcome where
  | noReachableEndpoints
  | found (profileName profilePicture : String)
  | notFound
deriving DecidableEq

/-- The hardcoded relay list of `fetchProfileInfo`. -/
def profileRelays : List String :=
  ["wss://relay.damus.io", "wss://nos.lol", "wss://relay.nostr.band"]

/-- The `onevent` handler of the kind-0 subscription, folded over the
events in arrival order across all connected relays, with the shared
`profileFound` flag.  Exactly as in the source, the flag is set to
`true` BEFORE `JSON.parse(event.content)` runs; a parse failure is
caught and logged, but the flag stays set, so no later event is ever
examined again. -/
def profileScan (parse : String → Option ProfileMeta) :
    Bool → List NEvent → Option ProfileMeta
  | _, [] => none
  | profileFound, e :: rest =>
    if e.kind = 0 ∧ profileFound = false then
      match parse e.content with
      | some m => some m
      | none => profileScan parse true rest
    else profileScan parse profileFound rest

/-- `fetchProfileInfo`: connect to every hardcoded relay in order,
skipping the ones whose connect throws; if zero connections succeeded,
return early with the distinct could-not-connect outcome; otherwise run
the kind-0 subscription over the arriving events and report the profile
if one resolved, else the not-found outcome (reached via the fallback
or global timeout with `profileName` still empty). -/
def fetchProfileInfo (connectOk : String → Bool)
    (parse : String → Option ProfileMeta) (events : List NEvent) : FetchOutcome :=
  let relayConnections := profileRelays.filter connectOk
  if relayConnections.isEmpty then .noReachableEndpoints
  else
    match profileScan parse false events with
    | some m => .found (jsOr m.name (jsOr m.display_name "")) (jsOr m.picture "")
    | none => .notFound

/-- A parse oracle for the poisoning scenario: exactly one content
string is well-formed profile metadata. -/
def c5Parse : String → Option ProfileMeta := fun s =>
  if s = "valid profile metadata" then some ⟨some "alice", none, some "https://pic.example/a.png"⟩
  else none

/-! ## Upload protocol client: `uploadImageToBlossom` / `uploadImages`
(src/imageUploader.ts) -/

/-- The authorization event built for an upload (BUDS02/NIP-98 style),
before signing: kind, created_at, tags, content, pubkey. -/
structure AuthEvent where
  kind : Nat
  created_at : Nat
  tags : List (List String)
  content : String
  pubkey : String
deriving DecidableEq

/-- The JSON body of a Blossom server response, restricted to the
fields the code reads; `none` models an absent field and `some ""` an
empty (falsy) one. -/
structure BlossomResponse where
  status : Option String
  url : Option String
deriving DecidableEq

/-- The outcome of `response.json()`: parsed data or a thrown parse
error. -/
inductive JsonResult where
  | ok (data : BlossomResponse)
  | parseError (msg : String)
deriving DecidableEq

/-- An HTTP response as the code reads it: `ok`, `status`,
`text()` (used for the error branch) and `json()`. -/
structure HttpResponse where
  ok : Bool
  status : Nat
  bodyText : String
  json : JsonResult
deriving DecidableEq

/-- Result of an attempted `fetch`: a thrown network error or a
response. -/
inductive FetchNetResult where
  | netError (msg : String)
  | response (r : HttpResponse)
deriving DecidableEq

/-- The single HTTP request the upload issues. -/
structure HttpRequest where
  method : String
  url : String
  contentType : String
  authorization : String
  accept : String
  body : List Nat
deriving DecidableEq

/-- External collaborators of the upload client: the filesystem
(`fs.existsSync`/`readFileSync` collapsed into an optional byte
payload), the clock, the crypto and serialization primitives of
nostr-tools/Buffer, and the network. -/
structure UploadEnv where
  file : String → Option (List Nat)
  now : Nat
  sha256hex : List Nat → String
  getPublicKey : List Nat → String
  signEvent : AuthEvent → List Nat → String
  jsonOfSigned : AuthEvent → String → String
  base64 : String → String
  server : HttpRequest → FetchNetResult

/-- `path.basename`: the final component after the last `/`, ignoring
trailing slashes. -/
def basename (p : String) : String :=
  let cs := p.data.reverse.dropWhile (fun c => c == '/')
  ⟨(cs.takeWhile (fun c => c != '/')).reverse⟩

/-- ASCII lowercasing, `String.prototype.toLowerCase` on extensions. -/
def toLowerStr (s : String) : String := ⟨s.data.map Char.toLower⟩

/-- `path.extname` on a file name: the suffix starting at the last
dot, or the empty string when there is no dot or the only dot is the
leading character. -/
def extnameAux : List Char → Nat → Option Nat → Option Nat
  | [], _, acc => acc
  | c :: rest, i, acc => extnameAux rest (i + 1) (if c = '.' then some i else acc)

def extname (name : String) : String :=
  match extnameAux name.data 0 none with
  | some i => if i = 0 then "" else ⟨name.data.drop i⟩
  | none => ""

/-- The MIME table of `uploadImageToBlossom`. -/
def mimeTypes : List (String × String) :=
  [(".jpg", "image/jpeg"), (".jpeg", "image/jpeg"), (".png", "image/png"),
   (".gif", "image/gif"), (".webp", "image/webp"), (".svg", "image/svg+xml")]

/-- Content type selection: the table entry for the lowercased
extension, else the generic binary type. -/
def contentTypeFor (ext : String) : String :=
  ((mimeTypes.lookup ext).getD "application/octet-stream")

/-- The upload authorization event exactly as the source builds it:
kind 24242, a `t upload` type tag, an `x` tag carrying the hex content
hash, and an `expiration` tag five minutes after now. -/
def buildUploadAuthEvent (env : UploadEnv) (privateKey : List Nat)
    (filename fileHash : String) : AuthEvent :=
  { kind := 24242
    created_at := env.now
    tags := [["t", "upload"], ["x", fileHash],
             ["expiration", toString (env.now + 5 * 60)]]
    content := "Upload " ++ filename
    pubkey := env.getPublicKey privateKey }

/-- The PUT request assembled by `uploadImageToBlossom` for an existing
payload. -/
def uploadRequestFor (env : UploadEnv) (privateKey : List Nat)
    (imagePath blossomServerUrl : String) (buf : List Nat) : HttpRequest :=
  let filename := basename imagePath
  let fileHash := env.sha256hex buf
  let event := buildUploadAuthEvent env privateKey filename fileHash
  let eventBase64 := env.base64 (env.jsonOfSigned event (env.signEvent event privateKey))
  { method := "PUT"
    url := blossomServerUrl ++ "/" ++ fileHash
    contentType := contentTypeFor (toLowerStr (extname filename))
    authorization := "Nostr " ++ eventBase64
    accept := "application/json"
    body := buf }

/-- JavaScript truthiness of the optional `url` field. -/
def urlTruthy : Option String → Bool
  | some u => u != ""
  | none => false

/-- The response handling of `uploadImageToBlossom`, in the `Except`
monad standing for `throw`: non-ok status throws with the server's
error text; an unparsable body rethrows the parse error; a body with a
truthy `url` (the `status: "success"` branch or the bare-`url` branch)
returns the url; anything else throws the URL-not-found message. -/
def handleBlossomResponse (res : FetchNetResult) : Except String String :=
  match res with
  | .netError m => .error m
  | .response resp =>
    if resp.ok = false then
      .error ("Server responded with " ++ toString resp.status ++ ": " ++ resp.bodyText)
    else
      match resp.json with
      | .parseError m => .error m
      | .ok data =>
        if data.status = some "success" ∧ urlTruthy data.url = true then
          .ok (data.url.getD "")
        else if urlTruthy data.url = true then
          .ok (data.url.getD "")
        else
          .error "Unable to parse Blossom server response: URL not found"

/-- The per-item upload result returned to the caller. -/
structure UploadedImage where
  originalPath : String
  url : String
  success : Bool
  error : Option String
deriving DecidableEq

/-- `uploadImageToBlossom`: missing file yields an early failure result
with no network activity; otherwise exactly one PUT request is issued
and every thrown error is caught into a failure result.  The second
component lists the requests issued. -/
def uploadImageToBlossom (env : UploadEnv) (imagePath blossomServerUrl : String)
    (privateKey : List Nat) : UploadedImage × List HttpRequest :=
  match env.file imagePath with
  | none =>
    ({ originalPath := imagePath, url := "", success := false,
       error := some ("File not found: " ++ imagePath) }, [])
  | some buf =>
    let req := uploadRequestFor env privateKey imagePath blossomServerUrl buf
    match handleBlossomResponse (env.server req) with
    | .ok url =>
      ({ originalPath := imagePath, url := url, success := true, error := none }, [req])
    | .error m =>
      ({ originalPath := imagePath, url := "", success := false, error := some m }, [req])

/-- JavaScript object write `results[key] = value`: overwrite the value
in place if the key exists, else append the binding. -/
def insertReplace (m : List (String × String)) (k v : String) : List (String × String) :=
  match m with
  | [] => [(k, v)]
  | (k', v') :: rest =>
    if k' = k then (k', v) :: rest else (k', v') :: insertReplace rest k v

/-- `uploadImages`: the sequential batch loop, accumulating only the
successful path-to-url mappings. -/
def uploadImages (env : UploadEnv) (imagePaths : List String)
    (blossomServerUrl : String) (privateKey : List Nat) : List (String × String) :=
  imagePaths.foldl
    (fun results imagePath =>
      if (uploadImageToBlossom env imagePath blossomServerUrl privateKey).1.success = true ∧
          (uploadImageToBlossom env imagePath blossomServerUrl privateKey).1.url ≠ "" then
        insertReplace results imagePath
          (uploadImageToBlossom env imagePath blossomServerUrl privateKey).1.url
      else results)
    []

/-- A concrete environment in which every upload succeeds, used to
instantiate hypotheses. -/
def envHappy : UploadEnv :=
  { file := fun _ => some [7, 8, 9]
    now := 1000
    sha256hex := fun _ => "abc123hash"
    getPublicKey := fun _ => "pubkeyhex"
    signEvent := fun _ _ => "sighex"
    jsonOfSigned := fun _ sig => "json+" ++ sig
    base64 := fun s => "b64(" ++ s ++ ")"
    server := fun _ =>
      .response ⟨true, 200, "", .ok ⟨some "success", some "https://cdn.example/abc123hash"⟩⟩ }

/-- An environment whose server answers HTTP 200 with the body
`status: "error"` but a url field — neither of the two documented
response shapes. -/
def envOtherShape : UploadEnv :=
  { envHappy with
    server := fun _ =>
      .response ⟨true, 200, "", .ok ⟨some "error", some "https://files.example/xyz"⟩⟩ }

/-- An environment where the source file is missing. -/
def envMissingFile : UploadEnv :=
  { envHappy with file := fun _ => none }

/-- An environment where the file exists but the server answers
HTTP 500. -/
def envServer500 : UploadEnv :=
  { envHappy with
    server := fun _ => .response ⟨false, 500, "Internal Server Error", .parseError "no body"⟩ }

/-! ## Content rewriter: `replaceResourceUrls` (imageUploader, resource
version) -/

/-- The whitespace class `\s` of JavaScript regular expressions,
restricted to the ASCII members. -/
def jsSpace (c : Char) : Bool :=
  c == ' ' || c == '\t' || c == '\n' || c == '\r' || c == '\x0b' || c == '\x0c'

/-- Whether `pat` is a prefix of `s`, character by character. -/
def listStartsWith : List Char → List Char → Bool
  | [], _ => true
  | _ :: _, [] => false
  | p :: ps, c :: cs => p == c && listStartsWith ps cs

/-- Whether three consecutive newline characters occur anywhere
(the `\n\n\n` test of the source, and the property the cleanup pass is
meant to establish). -/
def hasTripleNL : List Char → Bool
  | c1 :: c2 :: c3 :: rest =>
    (c1 == '\n' && c2 == '\n' && c3 == '\n') || hasTripleNL (c2 :: c3 :: rest)
  | _ => false

/-- JavaScript `String.prototype.trim` (ASCII whitespace). -/
def jsTrim (s : List Char) : List Char :=
  ((s.dropWhile jsSpace).reverse.dropWhile jsSpace).reverse

/-- Matcher for the tail `\]\(\s*:\/<rid>\s*\)(\s*\n*)` of the resource
regex at the current position: on success returns the captured trailing
whitespace run and the remaining input.  The greedy `\s*` groups cannot
backtrack here because `:`, the resource id head and `)` are never
whitespace, and the final capture `(\s*\n*)` is the maximal whitespace
run. -/
def matchResTail (rid : List Char) (s : List Char) :
    Option (List Char × List Char) :=
  match s with
  | ']' :: '(' :: s1 =>
    match s1.dropWhile jsSpace with
    | ':' :: '/' :: s3 =>
      if listStartsWith rid s3 then
        match (s3.drop rid.length).dropWhile jsSpace with
        | ')' :: s5 => some (s5.takeWhile jsSpace, s5.dropWhile jsSpace)
        | _ => none
      else none
    | _ => none
  | _ => none

/-- The lazy alt-text group `(.*?)` of the resource regex: starting
just after `![`, try the tail match at the current position first and
otherwise extend the alt text by one (non-newline) character, exactly
like backtracking on a lazy quantifier. -/
def tryAltRes (rid : List Char) (altRev : List Char) (s : List Char) :
    Option (List Char × List Char × List Char) :=
  match matchResTail rid s with
  | some (trail, rest) => some (altRev.reverse, trail, rest)
  | none =>
    match s with
    | [] => none
    | c :: cs => if c == '\n' then none else tryAltRes rid (c :: altRev) cs

/-- The replacement callback of `replaceResourceUrls`: collapse a
trailing run containing `\n\n\n` to exactly two newlines, then emit the
markdown image with the trimmed url (long-form) or the bare url
(regular note). -/
def resReplacement (isLongForm : Bool) (url alt trail : List Char) : List Char :=
  let normalizedTrailing := if hasTripleNL trail then ['\n', '\n'] else trail
  if isLongForm then
    '!' :: '[' :: (alt ++ ']' :: '(' :: (url ++ ')' :: normalizedTrailing))
  else url ++ normalizedTrailing

/-- The global `replace` scan for one resource id: find the leftmost
match, substitute, continue after it; advance one character when the
position does not start a match.  The fuel argument (initialised to the
input length) only bounds the recursion; every step consumes at least
one input character. -/
def replaceResScan (rid url : List Char) (isLongForm : Bool) :
    Nat → List Char → List Char
  | 0, s => s
  | _, [] => []
  | fuel + 1, '!' :: '[' :: s =>
    match tryAltRes rid [] s with
    | some (alt, trail, rest) =>
      resReplacement isLongForm url alt trail ++ replaceResScan rid url isLongForm fuel rest
    | none => '!' :: replaceResScan rid url isLongForm fuel ('[' :: s)
  | fuel + 1, c :: s => c :: replaceResScan rid url isLongForm fuel s

/-- One `modifiedContent.replace(regex, ...)` pass for one mapping
entry. -/
def replaceOneResource (content : List Char) (rid url : List Char)
    (isLongForm : Bool) : List Char :=
  replaceResScan rid url isLongForm content.length content

/-- The final cleanup `replace(/\n\n\n+/g, '\n\n')`: keep at most two
consecutive newlines, dropping every newline that already follows two.
`n` counts the consecutive newlines just emitted, saturating at 2. -/
def collapseAux : Nat → List Char → List Char
  | _, [] => []
  | n, c :: rest =>
    if c == '\n' then
      if 2 ≤ n then collapseAux n rest
      else c :: collapseAux (n + 1) rest
    else c :: collapseAux 0 rest

def collapseNL (s : List Char) : List Char := collapseAux 0 s

/-- `replaceResourceUrls`: substitute every mapping entry in order
(with the url trimmed), then run the global newline cleanup pass. -/
def replaceResourceUrls (content : String)
    (uploadedResources : List (String × String)) (isLongForm : Bool) : String :=
  let subst := uploadedResources.foldl
    (fun acc entry => replaceOneResource acc entry.1.data (jsTrim entry.2.data) isLongForm)
    content.data
  ⟨collapseNL subst⟩

/-- Count of leading newline characters, used to reason about the
cleanup pass. -/
def leadNLCount : List Char → Nat
  | [] => 0
  | c :: rest => if c == '\n' then leadNLCount rest + 1 else 0

/-! ## Image path extractor: `extractLocalImagePaths`
(src/imageUploader.ts) -/

/-- Whether `pat` occurs as a contiguous run somewhere in `s`. -/
def containsSeq (pat : List Char) : List Char → Bool
  | [] => listStartsWith pat []
  | c :: cs => listStartsWith pat (c :: cs) || containsSeq pat cs

/-- The ECMAScript line terminators, the characters the regex
metacharacter `.` never matches. -/
def jsLineTerm (c : Char) : Bool :=
  c == '\n' || c == '\r' || c == '\u2028' || c == '\u2029'

/-- The lazy capture tail `.*?\)` of the image regex: the shortest run
of non-line-terminator characters up to a closing parenthesis.
Returns the captured run and the input after the parenthesis. -/
def scanToParen : List Char → List Char → Option (List Char × List Char)
  | [], _ => none
  | c :: cs, acc =>
    if c = ')' then some (acc.reverse, cs)
    else if jsLineTerm c then none
    else scanToParen cs (c :: acc)

/-- The tail `\((file:\/\/.*?)\)` of the image regex at the current
position: a literal `](`, the literal `file://`, then the lazy capture
up to `)`. -/
def matchFileTail (s : List Char) : Option (List Char × List Char) :=
  match s with
  | c1 :: c2 :: rest =>
    if c1 = ']' ∧ c2 = '(' then
      if listStartsWith "file://".data rest then scanToParen (rest.drop 7) []
      else none
    else none
  | _ => none

/-- The lazy alt-text group `.*?` of the image regex: try the tail at
the current position first, else extend the alt text by one
non-line-terminator character, as a lazy quantifier backtracks. -/
def seekImgTail (s : List Char) : Option (List Char × List Char) :=
  match matchFileTail s with
  | some r => some r
  | none =>
    match s with
    | [] => none
    | c :: cs => if jsLineTerm c then none else seekImgTail cs

/-- Attempt of the whole regex `!\[.*?\]\((file:\/\/.*?)\)` at one
position: it must start with `![`. -/
def tryMatchAt (s : List Char) : Option (List Char × List Char) :=
  match s with
  | c1 :: c2 :: s' => if c1 = '!' ∧ c2 = '[' then seekImgTail s' else none
  | _ => none

/-- `String.prototype.replace` with a plain string pattern: replace the
first occurrence only. -/
def replaceFirstOcc (pat rep : List Char) : List Char → List Char
  | [] => if pat.isEmpty then rep else []
  | c :: cs =>
    if listStartsWith pat (c :: cs) then rep ++ (c :: cs).drop pat.length
    else c :: replaceFirstOcc pat rep cs

/-- The `while ((match = imageRegex.exec(content)) !== null)` loop:
at each position try the regex; on a match, emit the capture with the
`file://` prefix replaced away and the result decoded, and continue
after the match; otherwise advance one character.  The fuel
(initialised to the input length) only bounds the recursion. -/
def extractScan (decode : String → String) : Nat → List Char → List String
  | 0, _ => []
  | _ + 1, [] => []
  | fuel + 1, c :: s =>
    match tryMatchAt (c :: s) with
    | some (p, rest) =>
      decode ⟨replaceFirstOcc "file://".data [] ("file://".data ++ p)⟩ ::
        extractScan decode fuel rest
    | none => extractScan decode fuel s

/-- `extractLocalImagePaths`, with `decodeURIComponent` supplied as the
external `decode` oracle. -/
def extractLocalImagePaths (decode : String → String) (content : String) :
    List String :=
  extractScan decode content.data.length content.data

/-! ## Theorems about the broadcast engine -/

theorem attemptRelay_spec (b : RelayBehavior) (url : String) (s : BState) :
    attemptRelay b url s =
      { time := s.time + attemptDur b
        successCount := s.successCount + (if relayAttemptErr b = none then 1 else 0)
        errorMessages := s.errorMessages ++
          (match relayAttemptErr b with
           | some m => [url ++ ": " ++ m]
           | none => [])
        trace := s.trace ++ attemptTrace b url s.time } := by
  rcases b with ⟨ce, pe, ct, pt⟩
  cases ce with
  | some m => simp [attemptRelay, relayAttemptErr, attemptDur, attemptTrace]
  | none =>
    cases pe with
    | some m => simp [attemptRelay, relayAttemptErr, attemptDur, attemptTrace, Nat.add_assoc]
    | none => simp [attemptRelay, relayAttemptErr, attemptDur, attemptTrace, Nat.add_assoc]

theorem runBroadcast_foldl_spec (behav : String → RelayBehavior)
    (relays : List String) (s : BState) :
    relays.foldl (fun st url => attemptRelay (behav url) url st) s =
      { time := s.time + (relays.map (fun u => attemptDur (behav u))).sum
        successCount := s.successCount +
          (relays.filter (fun u => (relayAttemptErr (behav u)).isNone)).length
        errorMessages := s.errorMessages ++
          relays.filterMap
            (fun u => (relayAttemptErr (behav u)).map (fun m => u ++ ": " ++ m))
        trace := s.trace ++ broadcastTrace behav relays s.time } := by
  induction relays generalizing s with
  | nil => simp [broadcastTrace]
  | cons u rest ih =>
    rw [List.foldl_cons, ih, attemptRelay_spec]
    rcases h : relayAttemptErr (behav u) with _ | m
    · simp [h, broadcastTrace, List.filter_cons, Option.isNone]
      omega
    · simp [h, broadcastTrace, List.filter_cons, Option.isNone]
      omega

theorem outcomeEvents_append (l₁ l₂ : List NetEvent) :
    outcomeEvents (l₁ ++ l₂) = outcomeEvents l₁ ++ outcomeEvents l₂ := by
  simp [outcomeEvents]

theorem connectStarts_append (l₁ l₂ : List NetEvent) :
    connectStarts (l₁ ++ l₂) = connectStarts l₁ ++ connectStarts l₂ := by
  simp [connectStarts]

theorem outcomeEvents_attemptTrace (b : RelayBehavior) (u : String) (t : Nat) :
    outcomeEvents (attemptTrace b u t) = [(u, relayAttemptErr b)] := by
  rcases b with ⟨ce, pe, ct, pt⟩
  cases ce with
  | some m => simp [attemptTrace, relayAttemptErr, outcomeEvents]
  | none =>
    cases pe with
    | some m => simp [attemptTrace, relayAttemptErr, outcomeEvents]
    | none => simp [attemptTrace, relayAttemptErr, outcomeEvents]

theorem connectStarts_attemptTrace (b : RelayBehavior) (u : String) (t : Nat) :
    connectStarts (attemptTrace b u t) = [(u, t)] := by
  rcases b with ⟨ce, pe, ct, pt⟩
  cases ce with
  | some m => simp [attemptTrace, connectStarts]
  | none =>
    cases pe with
    | some m => simp [attemptTrace, connectStarts]
    | none => simp [attemptTrace, connectStarts]

theorem outcomeEvents_broadcastTrace (behav : String → RelayBehavior)
    (relays : List String) (t : Nat) :
    outcomeEvents (broadcastTrace behav relays t) =
      relays.map (fun u => (u, relayAttemptErr (behav u))) := by
  induction relays generalizing t with
  | nil => simp [broadcastTrace, outcomeEvents]
  | cons u rest ih =>
    rw [broadcastTrace, outcomeEvents_append, outcomeEvents_attemptTrace, ih]
    simp

theorem connectStarts_broadcastTrace (behav : String → RelayBehavior)
    (relays : List String) (t : Nat) :
    connectStarts (broadcastTrace behav relays t) = seqStarts behav relays t := by
  induction relays generalizing t with
  | nil => simp [broadcastTrace, connectStarts, seqStarts]
  | cons u rest ih =>
    rw [broadcastTrace, connectStarts_append, connectStarts_attemptTrace, ih, seqStarts]
    simp

theorem length_filter_isNone_add_filterMap {α β γ : Type} (f : α → Option β)
    (g : α → β → γ) (l : List α) :
    (l.filter (fun a => (f a).isNone)).length +
      (l.filterMap (fun a => (f a).map (g a))).length = l.length := by
  induction l with
  | nil => simp
  | cons a rest ih =>
    cases h : f a with
    | none =>
      simp [List.filter_cons, List.filterMap_cons, h]
      omega
    | some b =>
      simp [List.filter_cons, List.filterMap_cons, h]
      omega

/-- Claim C1: for every configured relay list of size N and every relay
behaviour — including the one where every relay fails — the publish loop
of `publishToNostr` yields exactly N per-endpoint outcomes, one per
configured relay in configured order, each either a success or a failure
carrying the causal error message; the loop aggregates them as
`successCount` plus `errorMessages` (which always sum to N) instead of
throwing or returning an aggregate error. -/
theorem broadcast_per_endpoint_outcomes (behav : String → RelayBehavior)
    (relays : List String) :
    outcomeEvents (runBroadcast behav relays).trace =
      relays.map (fun u => (u, relayAttemptErr (behav u))) ∧
    (runBroadcast behav relays).successCount +
      (runBroadcast behav relays).errorMessages.length = relays.length ∧
    (runBroadcast behav relays).errorMessages =
      relays.filterMap
        (fun u => (relayAttemptErr (behav u)).map (fun m => u ++ ": " ++ m)) := by
  have h := runBroadcast_foldl_spec behav relays initBState
  refine ⟨?_, ?_, ?_⟩
  · rw [runBroadcast, h]
    simp [initBState, outcomeEvents_broadcastTrace]
  · rw [runBroadcast, h]
    have hc := length_filter_isNone_add_filterMap
      (fun u => relayAttemptErr (behav u)) (fun u m => u ++ ": " ++ m) relays
    simp only [initBState, List.nil_append, Nat.zero_add]
    exact hc
  · rw [runBroadcast, h]
    simp [initBState]

/-- Claim C2 (code bug): evaluation of the publish loop at a behaviour
where the connect succeeds and the publish then fails: the trace records
the opened connection but never a close for it — `relay.close()` is only
reached on the success path, so the connection leaks, contradicting the
guaranteed-release wording of the spec. -/
theorem broadcast_connection_leak_on_publish_failure :
    NetEvent.connected "wss://relay.example"
        ∈ (runBroadcast leakBehav ["wss://relay.example"]).trace ∧
    NetEvent.closed "wss://relay.example"
        ∉ (runBroadcast leakBehav ["wss://relay.example"]).trace := by
  decide

/-- Claim C3, counterexample: the attempts are not independent parallel
tasks.  Two behaviours that agree on the second relay but give the first
relay different connect durations yield different start times for the
second relay's attempt: the slow first relay delays the second. -/
theorem broadcast_start_not_independent :
    slowFirstBehav "wss://live.example" = fastFirstBehav "wss://live.example" ∧
    (connectStarts (runBroadcast slowFirstBehav
        ["wss://dead.example", "wss://live.example"]).trace).lookup "wss://live.example" ≠
      (connectStarts (runBroadcast fastFirstBehav
        ["wss://dead.example", "wss://live.example"]).trace).lookup "wss://live.example" := by
  decide

/-- Claim C3, amended: the publish loop attempts the relays strictly
sequentially in configured order: each endpoint's connection attempt
starts exactly when the accumulated durations of all earlier endpoints'
attempts have elapsed, so a slow or dead endpoint delays every later
attempt. -/
theorem broadcast_sequential_start_times (behav : String → RelayBehavior)
    (relays : List String) :
    connectStarts (runBroadcast behav relays).trace = seqStarts behav relays 0 := by
  have h := runBroadcast_foldl_spec behav relays initBState
  rw [runBroadcast, h]
  simp only [initBState, List.nil_append]
  exact connectStarts_broadcastTrace behav relays 0

/-! ## Theorems about the fetch aggregator -/

theorem profileScan_no_kind0 (parse : String → Option ProfileMeta)
    (events : List NEvent) (fnd : Bool)
    (h : ∀ e ∈ events, e.kind ≠ 0) : profileScan parse fnd events = none := by
  induction events generalizing fnd with
  | nil => rfl
  | cons e rest ih =>
    have he : e.kind ≠ 0 := h e (by simp)
    simp only [profileScan, if_neg (by simp [he] :
      ¬(e.kind = 0 ∧ fnd = false))]
    exact ih fnd (fun x hx => h x (List.mem_cons_of_mem e hx))

/-- Claim C4: when zero of the three attempted relay connections
succeed, `fetchProfileInfo` takes the distinct early-return
could-not-connect branch (`NoReachableEndpoints`); when at least one
connection succeeds but no profile-kind record arrives, it resolves to
the distinct not-found outcome; and the two outcomes differ. -/
theorem fetch_no_reachable_vs_not_found (connectOk : String → Bool)
    (parse : String → Option ProfileMeta) (events : List NEvent) :
    (profileRelays.filter connectOk = [] →
      fetchProfileInfo connectOk parse events = .noReachableEndpoints) ∧
    (profileRelays.filter connectOk ≠ [] → (∀ e ∈ events, e.kind ≠ 0) →
      fetchProfileInfo connectOk parse events = .notFound) ∧
    (FetchOutcome.noReachableEndpoints ≠ FetchOutcome.notFound) := by
  refine ⟨?_, ?_, by decide⟩
  · intro h
    simp [fetchProfileInfo, h]
  · intro h hk
    simp [fetchProfileInfo, h, profileScan_no_kind0 parse events false hk]

theorem fetch_no_reachable_vs_not_found_witness :
    fetchProfileInfo (fun _ => false) (fun _ => none) [] = .noReachableEndpoints ∧
    fetchProfileInfo (fun _ => true) (fun _ => none) [⟨1, "irrelevant"⟩] = .notFound :=
  ⟨(fetch_no_reachable_vs_not_found (fun _ => false) (fun _ => none) []).1 (by decide),
   (fetch_no_reachable_vs_not_found (fun _ => true) (fun _ => none)
      [⟨1, "irrelevant"⟩]).2.1 (by decide) (by decide)⟩

/-- Claim C5 (code bug): a malformed kind-0 record does not merely fail
to match — because `profileFound` is set before `JSON.parse` runs, it
permanently poisons the search, so a later well-formed record on the
same connection set is ignored and the fetch ends in the not-found
outcome instead of resolving to the later candidate. -/
theorem malformed_profile_event_poisons_fetch :
    c5Parse "not-json garbage" = none ∧
    c5Parse "valid profile metadata" =
      some ⟨some "alice", none, some "https://pic.example/a.png"⟩ ∧
    fetchProfileInfo (fun _ => true) c5Parse
      [⟨0, "not-json garbage"⟩, ⟨0, "valid profile metadata"⟩] = .notFound := by
  decide

/-! ## Theorems about the upload protocol client -/

/-- Claim C6: for every existing payload, the upload builds the
authorization record of the dedicated kind 24242 with the type tag
`t upload`, an `x` tag carrying the hex content hash of the payload
bytes, and an `expiration` tag five minutes after now; signs it,
base64-encodes the signed record into a `Nostr` credential; and issues
exactly one PUT request to `destinationUrl + "/" + contentHash` with
that credential, the content type derived from the file extension
(defaulting to the generic binary type) and the raw payload as body —
whatever the server then answers. -/
theorem upload_single_put_protocol (env : UploadEnv)
    (imagePath blossomServerUrl : String) (privateKey : List Nat)
    (buf : List Nat) (h : env.file imagePath = some buf) :
    (uploadImageToBlossom env imagePath blossomServerUrl privateKey).2 =
      [uploadRequestFor env privateKey imagePath blossomServerUrl buf] ∧
    uploadRequestFor env privateKey imagePath blossomServerUrl buf =
      { method := "PUT"
        url := blossomServerUrl ++ "/" ++ env.sha256hex buf
        contentType := contentTypeFor (toLowerStr (extname (basename imagePath)))
        authorization := "Nostr " ++ env.base64 (env.jsonOfSigned
          (buildUploadAuthEvent env privateKey (basename imagePath) (env.sha256hex buf))
          (env.signEvent
            (buildUploadAuthEvent env privateKey (basename imagePath) (env.sha256hex buf))
            privateKey))
        accept := "application/json"
        body := buf } ∧
    (buildUploadAuthEvent env privateKey (basename imagePath) (env.sha256hex buf)).kind
        = 24242 ∧
    (buildUploadAuthEvent env privateKey (basename imagePath) (env.sha256hex buf)).tags =
      [["t", "upload"], ["x", env.sha256hex buf],
       ["expiration", toString (env.now + 5 * 60)]] := by
  refine ⟨?_, rfl, rfl, rfl⟩
  simp only [uploadImageToBlossom, h]
  cases handleBlossomResponse
      (env.server (uploadRequestFor env privateKey imagePath blossomServerUrl buf)) <;>
    simp

theorem upload_single_put_protocol_witness :
    envHappy.file "photos/pic.png" = some [7, 8, 9] ∧
    (uploadImageToBlossom envHappy "photos/pic.png" "https://blossom.example" [1, 2]).2 =
      [uploadRequestFor envHappy [1, 2] "photos/pic.png" "https://blossom.example"
        [7, 8, 9]] :=
  ⟨rfl, (upload_single_put_protocol envHappy "photos/pic.png" "https://blossom.example"
    [1, 2] [7, 8, 9] rfl).1⟩

/-- Claim C7, counterexample: a 200 response whose body carries
`status: "error"` together with a url — which is neither of the two
documented shapes — is accepted as a success carrying that url, because
the second branch of the response parsing only checks that `url` is
truthy. -/
theorem upload_accepts_other_status_shape :
    envOtherShape.server
        (uploadRequestFor envOtherShape [1] "a.png" "https://b.example" [7, 8, 9]) =
      .response ⟨true, 200, "", .ok ⟨some "error", some "https://files.example/xyz"⟩⟩ ∧
    (uploadImageToBlossom envOtherShape "a.png" "https://b.example" [1]).1.success
        = true ∧
    (uploadImageToBlossom envOtherShape "a.png" "https://b.example" [1]).1.url =
      "https://files.example/xyz" := by
  decide

/-- Claim C7, amended: the response handling accepts any parsed body
with a truthy `url` field — whatever value the `status` field has, or
none — as success carrying that url; a parsed body without a truthy url
fails with the fixed URL-not-found message; a non-ok HTTP status fails
with a message carrying the status and the server's error text; and
every failure cause (missing source file, network error, non-ok status,
unparsable body) is returned as a `success = false` result rather than
a thrown exception. -/
theorem upload_result_by_cause (env : UploadEnv)
    (imagePath blossomServerUrl : String) (privateKey : List Nat) :
    (env.file imagePath = none →
      (uploadImageToBlossom env imagePath blossomServerUrl privateKey).1 =
        { originalPath := imagePath, url := "", success := false,
          error := some ("File not found: " ++ imagePath) }) ∧
    (∀ buf, env.file imagePath = some buf →
      (∀ m, env.server (uploadRequestFor env privateKey imagePath blossomServerUrl buf)
          = .netError m →
        (uploadImageToBlossom env imagePath blossomServerUrl privateKey).1.success = false ∧
        (uploadImageToBlossom env imagePath blossomServerUrl privateKey).1.error = some m) ∧
      (∀ resp, env.server (uploadRequestFor env privateKey imagePath blossomServerUrl buf)
          = .response resp →
        (resp.ok = false →
          (uploadImageToBlossom env imagePath blossomServerUrl privateKey).1.success = false ∧
          (uploadImageToBlossom env imagePath blossomServerUrl privateKey).1.error =
            some ("Server responded with " ++ toString resp.status ++ ": " ++ resp.bodyText)) ∧
        (∀ m, resp.ok = true → resp.json = .parseError m →
          (uploadImageToBlossom env imagePath blossomServerUrl privateKey).1.success = false ∧
          (uploadImageToBlossom env imagePath blossomServerUrl privateKey).1.error = some m) ∧
        (∀ data, resp.ok = true → resp.json = .ok data →
          (urlTruthy data.url = true →
            (uploadImageToBlossom env imagePath blossomServerUrl privateKey).1.success = true ∧
            (uploadImageToBlossom env imagePath blossomServerUrl privateKey).1.url =
              data.url.getD "") ∧
          (urlTruthy data.url = false →
            (uploadImageToBlossom env imagePath blossomServerUrl privateKey).1.success = false ∧
            (uploadImageToBlossom env imagePath blossomServerUrl privateKey).1.error =
              some "Unable to parse Blossom server response: URL not found")))) := by
  constructor
  · intro h
    simp [uploadImageToBlossom, h]
  · intro buf hbuf
    refine ⟨?_, ?_⟩
    · intro m hm
      simp [uploadImageToBlossom, hbuf, handleBlossomResponse, hm]
    · intro resp hresp
      refine ⟨?_, ?_, ?_⟩
      · intro hok
        simp [uploadImageToBlossom, hbuf, handleBlossomResponse, hresp, hok]
      · intro m hok hjson
        simp [uploadImageToBlossom, hbuf, handleBlossomResponse, hresp, hok, hjson]
      · intro data hok hjson
        constructor
        · intro htruthy
          by_cases hs : data.status = some "success" <;>
            simp [uploadImageToBlossom, hbuf, handleBlossomResponse, hresp, hok, hjson,
              hs, htruthy]
        · intro htruthy
          simp [uploadImageToBlossom, hbuf, handleBlossomResponse, hresp, hok, hjson,
            htruthy]

theorem upload_result_by_cause_witness :
    envServer500.file "a.png" = some [7, 8, 9] ∧
    (uploadImageToBlossom envServer500 "a.png" "https://b.example" [1]).1.success
        = false ∧
    (uploadImageToBlossom envServer500 "a.png" "https://b.example" [1]).1.error =
      some "Server responded with 500: Internal Server Error" :=
  ⟨rfl, by
    have h := ((upload_result_by_cause envServer500 "a.png" "https://b.example" [1]).2
      [7, 8, 9] rfl).2 ⟨false, 500, "Internal Server Error", .parseError "no body"⟩ rfl
    exact h.1 rfl⟩

/-- Claim C8, counterexample: the batch upload returns only the map of
successful mappings; the per-item results are not part of its return
value.  Two environments in which the single item fails for different
causes (missing file vs. HTTP 500) produce different per-item
`UploadResult`s but identical (empty) batch outputs, so the batch
output cannot report the per-item results to its caller. -/
theorem upload_batch_output_forgets_item_results :
    uploadImages envMissingFile ["a.png"] "https://b.example" [1] =
      uploadImages envServer500 ["a.png"] "https://b.example" [1] ∧
    (uploadImageToBlossom envMissingFile "a.png" "https://b.example" [1]).1 ≠
      (uploadImageToBlossom envServer500 "a.png" "https://b.example" [1]).1 := by
  decide

theorem insertReplace_notMem (m : List (String × String)) (k v : String)
    (h : k ∉ m.map Prod.fst) : insertReplace m k v = m ++ [(k, v)] := by
  induction m with
  | nil => rfl
  | cons kv rest ih =>
    have hk : kv.1 ≠ k := by
      intro he
      exact h (by simp [he])
    rcases kv with ⟨k', v'⟩
    simp only [insertReplace, if_neg hk]
    rw [ih (fun hx => h (by simp [hx]))]
    simp

theorem uploadImages_foldl_spec (env : UploadEnv) (blossomServerUrl : String)
    (privateKey : List Nat) (paths : List String) (acc : List (String × String))
    (hnd : paths.Nodup) (hdisj : ∀ p ∈ paths, p ∉ acc.map Prod.fst) :
    paths.foldl
      (fun results imagePath =>
        if (uploadImageToBlossom env imagePath blossomServerUrl privateKey).1.success = true ∧
            (uploadImageToBlossom env imagePath blossomServerUrl privateKey).1.url ≠ "" then
          insertReplace results imagePath
            (uploadImageToBlossom env imagePath blossomServerUrl privateKey).1.url
        else results) acc =
    acc ++ paths.filterMap (fun p =>
      if (uploadImageToBlossom env p blossomServerUrl privateKey).1.success = true ∧
          (uploadImageToBlossom env p blossomServerUrl privateKey).1.url ≠ "" then
        some (p, (uploadImageToBlossom env p blossomServerUrl privateKey).1.url)
      else none) := by
  induction paths generalizing acc with
  | nil => simp
  | cons p rest ih =>
    have hp : p ∉ acc.map Prod.fst := hdisj p (by simp)
    have hnd' : rest.Nodup := (List.nodup_cons.mp hnd).2
    have hpr : p ∉ rest := (List.nodup_cons.mp hnd).1
    have hdisj' : ∀ q ∈ rest,
        q ∉ (acc ++
          [(p, (uploadImageToBlossom env p blossomServerUrl privateKey).1.url)]).map
            Prod.fst := by
      intro q hq
      simp only [List.map_append, List.mem_append]
      rintro (hqa | hqp)
      · exact hdisj q (List.mem_cons_of_mem p hq) hqa
      · simp at hqp
        exact hpr (hqp ▸ hq)
    by_cases hs : ((uploadImageToBlossom env p blossomServerUrl privateKey).1.success = true ∧
        (uploadImageToBlossom env p blossomServerUrl privateKey).1.url ≠ "")
    · rw [List.foldl_cons, List.filterMap_cons]
      simp only [if_pos hs, insertReplace_notMem acc p _ hp]
      rw [ih _ hnd' hdisj']
      simp
    · rw [List.foldl_cons, List.filterMap_cons]
      simp only [if_neg hs]
      rw [ih acc hnd' (fun q hq => hdisj q (List.mem_cons_of_mem p hq))]

/-- Claim C8, amended: the batch upload processes the payloads
sequentially and returns exactly the source-to-url mappings of the
successful uploads, in configured order, with failed uploads excluded;
the per-item results of the failed uploads are only logged, not
returned — the caller receives nothing but the success map. -/
theorem upload_batch_success_mappings (env : UploadEnv) (imagePaths : List String)
    (blossomServerUrl : String) (privateKey : List Nat) (h : imagePaths.Nodup) :
    uploadImages env imagePaths blossomServerUrl privateKey =
      imagePaths.filterMap (fun p =>
        if (uploadImageToBlossom env p blossomServerUrl privateKey).1.success = true ∧
            (uploadImageToBlossom env p blossomServerUrl privateKey).1.url ≠ "" then
          some (p, (uploadImageToBlossom env p blossomServerUrl privateKey).1.url)
        else none) := by
  have hs := uploadImages_foldl_spec env blossomServerUrl privateKey imagePaths []
    h (by simp)
  simpa [uploadImages] using hs

theorem upload_batch_success_mappings_witness :
    ["a.png", "b.png"].Nodup ∧
    uploadImages envHappy ["a.png", "b.png"] "https://b.example" [1] =
      [("a.png", "https://cdn.example/abc123hash"),
       ("b.png", "https://cdn.example/abc123hash")] :=
  ⟨by decide, by
    have h := upload_batch_success_mappings envHappy ["a.png", "b.png"]
      "https://b.example" [1] (by decide)
    rw [h]
    decide⟩

/-! ## Theorems about the content rewriter -/

theorem collapseAux_leadNL_of_two (s : List Char) :
    ∀ n, 2 ≤ n → leadNLCount (collapseAux n s) = 0 := by
  induction s with
  | nil => intro n _; rfl
  | cons c rest ih =>
    intro n h
    by_cases hc : c = '\n'
    · subst hc
      simp only [collapseAux, if_pos h, beq_self_eq_true, if_true]
      exact ih n h
    · simp [collapseAux, hc, leadNLCount]

theorem collapseAux_leadNL_one (s : List Char) :
    leadNLCount (collapseAux 1 s) ≤ 1 := by
  cases s with
  | nil => simp [collapseAux, leadNLCount]
  | cons c rest =>
    by_cases hc : c = '\n'
    · subst hc
      have h2 : leadNLCount (collapseAux 2 rest) = 0 :=
        collapseAux_leadNL_of_two rest 2 (le_refl 2)
      simp [collapseAux, leadNLCount, h2]
    · simp [collapseAux, hc, leadNLCount]

theorem hasTripleNL_cons_of_ne (c : Char) (l : List Char) (hc : c ≠ '\n') :
    hasTripleNL (c :: l) = hasTripleNL l := by
  match l with
  | [] => simp [hasTripleNL]
  | [x] => simp [hasTripleNL]
  | x :: y :: t => simp [hasTripleNL, hc]

theorem collapseAux_no_triple (s : List Char) :
    ∀ n, hasTripleNL (collapseAux n s) = false := by
  induction s with
  | nil => intro n; rfl
  | cons c rest ih =>
    intro n
    by_cases hc : c = '\n'
    · subst hc
      by_cases hn : 2 ≤ n
      · simp only [collapseAux, if_pos hn, beq_self_eq_true, if_true]
        exact ih n
      · simp only [collapseAux, if_neg hn, beq_self_eq_true, if_true]
        have hle : leadNLCount (collapseAux (n + 1) rest) ≤ 1 := by
          by_cases h2 : 2 ≤ n + 1
          · rw [collapseAux_leadNL_of_two rest (n + 1) h2]
            exact Nat.zero_le 1
          · have hn0 : n = 0 := by omega
            subst hn0
            exact collapseAux_leadNL_one rest
        have hout := ih (n + 1)
        rcases hcoll : collapseAux (n + 1) rest with _ | ⟨c2, clist⟩
        · rfl
        · rcases clist with _ | ⟨c3, t⟩
          · simp [hasTripleNL]
          · rw [hcoll] at hle hout
            have hnot : ¬(c2 = '\n' ∧ c3 = '\n') := by
              rintro ⟨h2', h3'⟩
              subst h2'; subst h3'
              simp [leadNLCount] at hle
            by_cases hc2 : c2 = '\n'
            · have hc3 : c3 ≠ '\n' := fun h3' => hnot ⟨hc2, h3'⟩
              rw [hc2] at hout
              simp [hasTripleNL, hc2, hc3, hout]
            · simp [hasTripleNL, hc2, hout]
    · simp only [collapseAux, if_neg (by simp [hc] : ¬(c == '\n') = true)]
      rw [hasTripleNL_cons_of_ne c _ hc]
      exact ih 0

/-- Claim C9: after `replaceResourceUrls` has performed all
substitutions, the global cleanup pass guarantees that no three
consecutive newline characters remain anywhere in the returned text,
for every input text, mapping and style; in particular three
consecutive blank lines after a replaced reference collapse to exactly
one blank line (two newlines). -/
theorem rewrite_limits_consecutive_newlines :
    (∀ (content : String) (mapping : List (String × String)) (isLongForm : Bool),
      hasTripleNL (replaceResourceUrls content mapping isLongForm).data = false) ∧
    replaceResourceUrls "![pic](:/abc123)\n\n\n\nAfter"
        [("abc123", "https://cdn.example/img.png")] false =
      "https://cdn.example/img.png\n\nAfter" := by
  constructor
  · intro content mapping isLongForm
    exact collapseAux_no_triple _ 0
  · rfl

/-! ## Theorems about the image path extractor -/

theorem listStartsWith_append (pat x : List Char) :
    listStartsWith pat (pat ++ x) = true := by
  induction pat with
  | nil => rfl
  | cons p ps ih => simp [listStartsWith, ih]

theorem listStartsWith_exists (pat : List Char) :
    ∀ s, listStartsWith pat s = true → ∃ x, s = pat ++ x := by
  induction pat with
  | nil => intro s _; exact ⟨s, rfl⟩
  | cons p ps ih =>
    intro s h
    cases s with
    | nil => simp [listStartsWith] at h
    | cons c cs =>
      simp only [listStartsWith, Bool.and_eq_true, beq_iff_eq] at h
      obtain ⟨x, hx⟩ := ih cs h.2
      exact ⟨x, by simp [h.1, hx]⟩

theorem containsSeq_of_tail (pat : List Char) (c : Char) (cs : List Char)
    (h : containsSeq pat (c :: cs) = false) : containsSeq pat cs = false := by
  simp only [containsSeq, Bool.or_eq_false_iff] at h
  exact h.2

theorem replaceFirstOcc_strip (pat p : List Char) (hne : pat ≠ []) :
    replaceFirstOcc pat [] (pat ++ p) = p := by
  cases pat with
  | nil => exact absurd rfl hne
  | cons a ps =>
    have hsw : listStartsWith (a :: ps) (a :: (ps ++ p)) = true := by
      simpa using listStartsWith_append (a :: ps) p
    show replaceFirstOcc (a :: ps) [] (a :: (ps ++ p)) = p
    simp only [replaceFirstOcc, hsw, if_true, List.nil_append]
    have hshape : a :: (ps ++ p) = (a :: ps) ++ p := rfl
    rw [hshape, List.drop_left]

theorem scanToParen_clean (p : List Char) :
    ∀ post acc, ')' ∉ p → (∀ c ∈ p, jsLineTerm c = false) →
      scanToParen (p ++ ')' :: post) acc = some (acc.reverse ++ p, post) := by
  induction p with
  | nil => intro post acc _ _; simp [scanToParen]
  | cons c cs ih =>
    intro post acc h4 h5
    have hc4 : c ≠ ')' := fun h => h4 (h ▸ List.mem_cons_self c cs)
    have hc5 : ¬(jsLineTerm c = true) := by
      simp [h5 c (List.mem_cons_self c cs)]
    simp only [List.cons_append, scanToParen, if_neg hc4, if_neg hc5, List.append_eq]
    rw [ih post (c :: acc) (fun h => h4 (List.mem_cons_of_mem c h))
      (fun x hx => h5 x (List.mem_cons_of_mem c hx))]
    simp

theorem seekImgTail_at_construct (alt : List Char) :
    ∀ p post, containsSeq [']', '('] alt = false →
      (∀ c ∈ alt, jsLineTerm c = false) →
      ')' ∉ p → (∀ c ∈ p, jsLineTerm c = false) →
      seekImgTail (alt ++ ']' :: '(' :: ("file://".data ++ (p ++ ')' :: post))) =
        some (p, post) := by
  induction alt with
  | nil =>
    intro p post _ _ h4 h5
    have hsw : listStartsWith "file://".data ("file://".data ++ (p ++ ')' :: post))
        = true := listStartsWith_append _ _
    have hdrop : ("file://".data ++ (p ++ ')' :: post)).drop 7 = p ++ ')' :: post := by
      have h7 : ("file://".data).length = 7 := rfl
      rw [← h7, List.drop_left]
    simp only [List.nil_append, seekImgTail, matchFileTail,
      if_pos (⟨rfl, rfl⟩ : (']' : Char) = ']' ∧ ('(' : Char) = '('), hsw, if_true, hdrop]
    rw [scanToParen_clean p post [] h4 h5]
    simp
  | cons c alt' ih =>
    intro p post h2 h3 h4 h5
    have hc3 : ¬(jsLineTerm c = true) := by
      simp [h3 c (List.mem_cons_self c alt')]
    have hfail : matchFileTail
        (c :: (alt' ++ ']' :: '(' :: ("file://".data ++ (p ++ ')' :: post)))) = none := by
      cases alt' with
      | nil =>
        have : ¬((c = ']') ∧ ((']' : Char) = '(')) := by
          rintro ⟨_, h⟩
          exact absurd h (by decide)
        simp only [List.nil_append, matchFileTail, if_neg this]
      | cons c2 alt'' =>
        have hnc : ¬(c = ']' ∧ c2 = '(') := by
          rintro ⟨hc', hc2'⟩
          subst hc'; subst hc2'
          simp [containsSeq, listStartsWith] at h2
        simp only [List.cons_append, matchFileTail, if_neg hnc]
    rw [List.cons_append, seekImgTail, hfail]
    simp only [if_neg hc3]
    exact ih p post (containsSeq_of_tail _ c alt' h2)
      (fun x hx => h3 x (List.mem_cons_of_mem c hx)) h4 h5

theorem scanToParen_rest_lt (u : List Char) :
    ∀ acc p rest, scanToParen u acc = some (p, rest) → rest.length < u.length := by
  induction u with
  | nil => intro acc p rest h; exact absurd h (by simp [scanToParen])
  | cons c cs ih =>
    intro acc p rest h
    by_cases hc : c = ')'
    · simp only [scanToParen, if_pos hc] at h
      cases h
      simp [Nat.lt_succ_iff]
    · by_cases hn : jsLineTerm c = true
      · simp [scanToParen, hc, hn] at h
      · simp only [scanToParen, if_neg hc, if_neg hn] at h
        exact Nat.lt_trans (ih (c :: acc) p rest h) (Nat.lt_succ_self _)

theorem matchFileTail_rest_lt (s : List Char) (p rest : List Char)
    (h : matchFileTail s = some (p, rest)) : rest.length < s.length := by
  match s with
  | [] => exact absurd h (by simp [matchFileTail])
  | [c] => exact absurd h (by simp [matchFileTail])
  | c1 :: c2 :: t =>
    by_cases hcond : c1 = ']' ∧ c2 = '('
    · by_cases hsw : listStartsWith "file://".data t = true
      · simp only [matchFileTail, if_pos hcond, hsw, if_true] at h
        have hlt := scanToParen_rest_lt (t.drop 7) [] p rest h
        have hle : (t.drop 7).length ≤ t.length := by
          simp [List.length_drop]
        simp only [List.length_cons]
        omega
      · simp only [matchFileTail] at h
        rw [if_pos hcond, if_neg hsw] at h
        cases h
    · simp [matchFileTail, hcond] at h

theorem seekImgTail_rest_lt (s : List Char) :
    ∀ p rest, seekImgTail s = some (p, rest) → rest.length < s.length := by
  induction s with
  | nil =>
    intro p rest h
    exact absurd h (by simp [seekImgTail, matchFileTail])
  | cons c cs ih =>
    intro p rest h
    rw [seekImgTail] at h
    cases hmt : matchFileTail (c :: cs) with
    | some r =>
      rw [hmt] at h
      cases h
      exact matchFileTail_rest_lt _ _ _ hmt
    | none =>
      rw [hmt] at h
      by_cases hc : jsLineTerm c = true
      · simp [if_pos hc] at h
      · simp only [if_neg hc] at h
        exact Nat.lt_trans (ih p rest h) (Nat.lt_succ_self _)

theorem tryMatchAt_some_shape (s : List Char) (p rest : List Char)
    (h : tryMatchAt s = some (p, rest)) :
    ∃ s', s = '!' :: '[' :: s' ∧ seekImgTail s' = some (p, rest) := by
  match s with
  | [] => exact absurd h (by simp [tryMatchAt])
  | [c] => exact absurd h (by simp [tryMatchAt])
  | c1 :: c2 :: t =>
    by_cases hcond : c1 = '!' ∧ c2 = '['
    · obtain ⟨h1, h2⟩ := hcond
      subst h1; subst h2
      refine ⟨t, rfl, ?_⟩
      simpa [tryMatchAt] using h
    · simp [tryMatchAt, hcond] at h

theorem tryMatchAt_rest_lt (s : List Char) (p rest : List Char)
    (h : tryMatchAt s = some (p, rest)) : rest.length < s.length := by
  obtain ⟨s', hs, hseek⟩ := tryMatchAt_some_shape s p rest h
  subst hs
  have := seekImgTail_rest_lt s' p rest hseek
  simp only [List.length_cons]
  omega

theorem extractScan_fuel_eq (decode : String → String) :
    ∀ f1 f2 s, s.length ≤ f1 → s.length ≤ f2 →
      extractScan decode f1 s = extractScan decode f2 s := by
  intro f1
  induction f1 with
  | zero =>
    intro f2 s h1 _
    have hs : s = [] := by
      cases s with
      | nil => rfl
      | cons c cs => simp at h1
    subst hs
    cases f2 <;> rfl
  | succ f ih =>
    intro f2 s h1 h2
    cases s with
    | nil => cases f2 <;> rfl
    | cons c cs =>
      cases f2 with
      | zero => simp at h2
      | succ f2' =>
        simp only [List.length_cons, Nat.succ_le_succ_iff] at h1 h2
        cases htm : tryMatchAt (c :: cs) with
        | none =>
          simp only [extractScan, htm]
          exact ih f2' cs h1 h2
        | some pr =>
          rcases pr with ⟨p, rest⟩
          have hlt := tryMatchAt_rest_lt _ _ _ htm
          simp only [List.length_cons] at hlt
          simp only [extractScan, htm]
          rw [ih f2' rest (by omega) (by omega)]

theorem extractScan_skip_start (decode : String → String) (pre : List Char) :
    ∀ s, containsSeq ['!', '['] pre = false →
      (∀ c cs, s = c :: cs → c ≠ '[') →
      extractScan decode (pre ++ s).length (pre ++ s) =
        extractScan decode s.length s := by
  induction pre with
  | nil => intro s _ _; rfl
  | cons c pre' ih =>
    intro s h1 hhead
    have htm : tryMatchAt (c :: (pre' ++ s)) = none := by
      cases hps : pre' ++ s with
      | nil => rfl
      | cons c2 t =>
        have hnc : ¬(c = '!' ∧ c2 = '[') := by
          rintro ⟨hc', hc2'⟩
          subst hc'; subst hc2'
          cases pre' with
          | nil =>
            simp only [List.nil_append] at hps
            exact hhead '[' t hps rfl
          | cons d pre'' =>
            have hd : d = '[' := by
              simpa using congrArg (fun l => l.head?) hps
            subst hd
            simp [containsSeq, listStartsWith] at h1
        simp [tryMatchAt, hnc]
    have hlen : (c :: pre' ++ s).length = (pre' ++ s).length + 1 := by simp
    simp only [List.cons_append, hlen, extractScan, List.append_eq, htm]
    exact ih s (containsSeq_of_tail _ c pre' h1) hhead

theorem extractScan_no_bang (decode : String → String) :
    ∀ fuel s, containsSeq ['!', '['] s = false → extractScan decode fuel s = [] := by
  intro fuel
  induction fuel with
  | zero => intro s _; rfl
  | succ f ih =>
    intro s h
    cases s with
    | nil => rfl
    | cons c cs =>
      have htm : tryMatchAt (c :: cs) = none := by
        cases cs with
        | nil => rfl
        | cons c2 t =>
          have hnc : ¬(c = '!' ∧ c2 = '[') := by
            rintro ⟨hc', hc2'⟩
            subst hc'; subst hc2'
            simp [containsSeq, listStartsWith] at h
          simp [tryMatchAt, hnc]
      simp only [extractScan, htm]
      exact ih cs (containsSeq_of_tail _ c cs h)

theorem matchFileTail_marker (s : List Char) (p rest : List Char)
    (h : matchFileTail s = some (p, rest)) :
    ∃ x, s = "](file://".data ++ x := by
  match s with
  | [] => exact absurd h (by simp [matchFileTail])
  | [c] => exact absurd h (by simp [matchFileTail])
  | c1 :: c2 :: t =>
    by_cases hcond : c1 = ']' ∧ c2 = '('
    · obtain ⟨h1, h2⟩ := hcond
      subst h1; subst h2
      by_cases hsw : listStartsWith "file://".data t = true
      · obtain ⟨x, hx⟩ := listStartsWith_exists "file://".data t hsw
        exact ⟨x, by rw [hx]; rfl⟩
      · simp only [matchFileTail, and_self, if_true] at h
        rw [if_neg hsw] at h
        cases h
    · simp [matchFileTail, hcond] at h

theorem containsSeq_of_startsWith (pat s : List Char)
    (h : ∃ x, s = pat ++ x) : containsSeq pat s = true := by
  obtain ⟨x, hx⟩ := h
  subst hx
  cases hp : pat ++ x with
  | nil => simp [containsSeq, ← hp, listStartsWith_append]
  | cons c t =>
    simp only [containsSeq, ← hp, Bool.or_eq_true]
    exact Or.inl (listStartsWith_append pat x)

theorem seekImgTail_marker (s : List Char) :
    ∀ p rest, seekImgTail s = some (p, rest) →
      containsSeq ("](file://".data) s = true := by
  induction s with
  | nil =>
    intro p rest h
    exact absurd h (by simp [seekImgTail, matchFileTail])
  | cons c cs ih =>
    intro p rest h
    rw [seekImgTail] at h
    cases hmt : matchFileTail (c :: cs) with
    | some r =>
      exact containsSeq_of_startsWith _ _ (matchFileTail_marker _ r.1 r.2 (by
        rw [hmt]))
    | none =>
      rw [hmt] at h
      by_cases hc : jsLineTerm c = true
      · simp [if_pos hc] at h
      · simp only [if_neg hc] at h
        simp only [containsSeq, Bool.or_eq_true]
        exact Or.inr (ih p rest h)

theorem extractScan_no_marker (decode : String → String) :
    ∀ fuel s, containsSeq ("](file://".data) s = false →
      extractScan decode fuel s = [] := by
  intro fuel
  induction fuel with
  | zero => intro s _; rfl
  | succ f ih =>
    intro s h
    cases s with
    | nil => rfl
    | cons c cs =>
      have htm : tryMatchAt (c :: cs) = none := by
        cases htm' : tryMatchAt (c :: cs) with
        | none => rfl
        | some r =>
          exfalso
          obtain ⟨s', hs, hseek⟩ := tryMatchAt_some_shape _ r.1 r.2 (by rw [htm'])
          have hmk := seekImgTail_marker s' r.1 r.2 hseek
          have : containsSeq ("](file://".data) (c :: cs) = true := by
            rw [hs]
            simp only [containsSeq, Bool.or_eq_true]
            exact Or.inr (Or.inr hmk)
          rw [h] at this
          exact Bool.false_ne_true this
      simp only [extractScan, htm]
      exact ih cs (containsSeq_of_tail _ c cs h)

/-- Claim C10: `extractLocalImagePaths` returns exactly the targets of
the markdown image constructs `![alt](file://path)`, in their order of
occurrence: prepending a construct-free prefix and one construct
`![alt](file://p)` — alt text and path free of ECMAScript line
terminators, which the regex metacharacter `.` never crosses — to any
remaining text contributes exactly the decoded `p` (with the `file://`
prefix stripped and the external `decodeURIComponent` applied) in
front of the extraction of the remaining text; and a string containing
no `![` or no `](file://` — in particular one with no image construct
at all, a non-image `[link](file://...)`, or an image with a
non-`file://` target — yields the empty list. -/
theorem extract_local_image_paths_characterization (decode : String → String) :
    (∀ pre alt p post : List Char,
      containsSeq ['!', '['] pre = false →
      containsSeq [']', '('] alt = false →
      (∀ c ∈ alt, jsLineTerm c = false) →
      ')' ∉ p → (∀ c ∈ p, jsLineTerm c = false) →
      extractLocalImagePaths decode
          ⟨pre ++ '!' :: '[' ::
            (alt ++ ']' :: '(' :: ("file://".data ++ (p ++ ')' :: post)))⟩ =
        decode ⟨p⟩ :: extractLocalImagePaths decode ⟨post⟩) ∧
    (∀ s : String,
      containsSeq ['!', '['] s.data = false ∨
        containsSeq ("](file://".data) s.data = false →
      extractLocalImagePaths decode s = []) := by
  constructor
  · intro pre alt p post h1 h2 h3 h4 h5
    show extractScan decode _ _ = _
    rw [extractScan_skip_start decode pre _ h1 (by
      intro c cs hc
      have hhd : '!' = c := by simpa using congrArg (fun l => l.head?) hc
      subst hhd
      decide)]
    have hseek := seekImgTail_at_construct alt p post h2 h3 h4 h5
    have htm : tryMatchAt ('!' :: '[' ::
        (alt ++ ']' :: '(' :: ("file://".data ++ (p ++ ')' :: post)))) =
        some (p, post) := by
      simp only [tryMatchAt, if_pos (⟨rfl, rfl⟩ :
        ('!' : Char) = '!' ∧ ('[' : Char) = '[')]
      exact hseek
    have hlen : ('!' :: '[' ::
        (alt ++ ']' :: '(' :: ("file://".data ++ (p ++ ')' :: post)))).length =
        (alt ++ ']' :: '(' :: ("file://".data ++ (p ++ ')' :: post))).length + 2 := by
      simp
    rw [hlen]
    simp only [extractScan, htm]
    rw [replaceFirstOcc_strip "file://".data p (by decide)]
    have hpost : post.length ≤
        (alt ++ ']' :: '(' :: ("file://".data ++ (p ++ ')' :: post))).length + 1 := by
      simp [List.length_append]
      omega
    rw [extractScan_fuel_eq decode _ post.length post hpost (Nat.le_refl _)]
    rfl
  · intro s h
    rcases h with h | h
    · exact extractScan_no_bang decode _ s.data h
    · exact extractScan_no_marker decode _ s.data h

theorem extract_local_image_paths_witness :
    extractLocalImagePaths (fun s => s)
        "Intro ![alt text](file://home/u/img%20a.png) and [doc](file://d.txt)" =
      ["home/u/img%20a.png"] := by
  have hs : ("Intro ![alt text](file://home/u/img%20a.png) and [doc](file://d.txt)" :
      String) =
      ⟨"Intro ".data ++ '!' :: '[' ::
        ("alt text".data ++ ']' :: '(' ::
          ("file://".data ++ ("home/u/img%20a.png".data ++ ')' ::
            " and [doc](file://d.txt)".data)))⟩ := by decide
  have h1 := (extract_local_image_paths_characterization (fun s => s)).1
    "Intro ".data "alt text".data "home/u/img%20a.png".data
    " and [doc](file://d.txt)".data
    (by decide) (by decide) (by decide) (by decide) (by decide)
  have h2 := (extract_local_image_paths_characterization (fun s => s)).2
    " and [doc](file://d.txt)" (Or.inl (by decide))
  rw [hs, h1]
  rw [show (⟨" and [doc](file://d.txt)".data⟩ : String) =
    " and [doc](file://d.txt)" from rfl, h2]

end JP2N
